import Mathlib

/-!
A verification development for the zone context-propagation runtime and the
fake-async virtual-clock test engine of this repository.

Part 1 embeds the zone ("context node") model and the `Zone.__awaiter`
function from `packages/zone.js/lib/awaiter/zone.native.awaiter.ts`.
Part 2 embeds the virtual-clock scheduler driven by the fake-async test
helpers, and the thin helper wrappers from
`packages/core/testing/src/fake_async.ts`.

JavaScript values that matter here are modelled as `Option Int`
(`none` = `undefined`); errors are modelled as strings.
-/

abbrev Err := String

/-- Modelled from the spec: the Context Node ("zone") tree of the context
runtime (the zone core is not under src/, only its callers are). A node is
immutable, has a parent (root has none), a name, and an optional
`onHandleError` hook that inspects an error and reports whether it marked
the error handled. -/
inductive Zone where
  | root : Zone
  | fork (parent : Zone) (name : String) (onHandleError : Option (Err → Bool)) : Zone

/-- The hooks installed on a node and its ancestors, nearest first. -/
def Zone.hooks : Zone → List (Err → Bool)
  | .root => []
  | .fork p _ none => p.hooks
  | .fork p _ (some h) => h :: p.hooks

/-- Modelled from the spec: walking the `onHandleError` chain from a node to
the root; the error is handled as soon as some hook marks it handled, and
if every hook declines the chain reports unhandled (the error is rethrown). -/
def Zone.handleErrorChain : Zone → Err → Bool
  | .root, _ => false
  | .fork p _ none, e => p.handleErrorChain e
  | .fork p _ (some h), e => h e || p.handleErrorChain e

theorem handleErrorChain_any_hook (z : Zone) (e : Err) :
    z.handleErrorChain e = z.hooks.any (fun h => h e) := by
  induction z with
  | root => rfl
  | fork p n hook ih =>
    cases hook with
    | none => simpa [Zone.handleErrorChain, Zone.hooks] using ih
    | some h => simp [Zone.handleErrorChain, Zone.hooks, ih]

/-- The runtime's single mutable register: the current zone, plus the
sequence of zones that other contexts install while this computation is
suspended at `await` boundaries (arbitrary interference). -/
structure ZState where
  cur : Zone
  pending : List Zone

/-- Crossing an `await` boundary: arbitrary other code may have run, so the
current-zone register takes the next interference value (if any). -/
def afterAwait (st : ZState) : ZState :=
  match st.pending with
  | [] => st
  | z :: rest => ⟨z, rest⟩

/-- Modelled from the spec: `zone.run(fn)` sets the current register to the
target zone, invokes the callback (which observes the register), and
restores the previous register value on exit. Returns the callback result,
the zone the callback observed as current, and the register state after. -/
def Zone.runCall {α : Type} (z : Zone) (f : Zone → α) (st : ZState) : (α × Zone) × ZState :=
  let entered : ZState := { st with cur := z }
  ((f entered.cur, entered.cur), { entered with cur := st.cur })

/-- Modelled from the spec: a task owns the zone current when it was
scheduled, and its callback is invoked with the owning node restored as
current. -/
structure ZTask (α : Type) where
  owner : Zone
  callback : Zone → α

/-- Firing a task: the engine invokes the callback through the context
runtime, which installs the owning zone as current for the duration. -/
def invokeTask {α : Type} (t : ZTask α) (st : ZState) : (α × Zone) × ZState :=
  t.owner.runCall t.callback st

/-- One generator resumption outcome, following the generator protocol used
by `Zone.__awaiter`: `{done: false, value}`, `{done: true, value}`, or a
throw out of the generator body. The carried value is what `await` sees:
`Except.ok v` is a plain value, `Except.error e` a rejected promise. -/
inductive GenOut where
  | yielded (value : Except Err (Option Int))
  | finished (value : Except Err (Option Int))
  | threw (e : Err)

/-- A generator as a state machine. `resume` is `gen.next(arg)` and
`throwInto` is `gen.throw(e)`; both run user code that can observe the
current zone, passed as the last argument. -/
structure Generator (σ : Type) where
  start : σ
  resume : σ → Option Int → Zone → GenOut × σ
  throwInto : σ → Err → Zone → GenOut × σ

/-- The observable result of a `Zone.__awaiter` run: the settled value of
the returned promise, the final generator state, the list of zones the
generator body observed as current (one entry per resumption step), and
the final register state. -/
structure AwaitRes (σ : Type) where
  result : Except Err (Option Int)
  final : σ
  obs : List Zone
  st : ZState

/-- Outcome of the `catch` block of `Zone.__awaiter`'s loop. -/
inductive CatchOut (σ : Type) where
  | cont (s : σ) (done : Bool)
  | rej (e : Err) (s : σ)

/-- The `catch (error)` block of `Zone.__awaiter` (source lines 19-23):
`zone.runGuarded(() => { res = gen.throw(error); }, undefined, [], 'native await')`.
If `gen.throw` completes, `res` is updated and the loop continues; if it
throws, the guarded run offers the error to the zone's `onHandleError`
chain: handled means execution continues with `res` unchanged, otherwise
the error is rethrown and the awaiter's promise rejects. -/
def awaiterCatch {σ : Type} (z : Zone) (g : Generator σ) (s : σ) (done : Bool) (e : Err)
    (st : ZState) : CatchOut σ × Zone × ZState :=
  match z.runCall (fun zc => g.throwInto s e zc) st with
  | (((out, s'), zo), st') =>
    match out with
    | .threw e₂ => (if z.handleErrorChain e₂ then .cont s' done else .rej e₂ s', zo, st')
    | .yielded _ => (.cont s' false, zo, st')
    | .finished _ => (.cont s' true, zo, st')

/-- The `while (!res.done)` loop of `Zone.__awaiter` (source lines 15-24),
with explicit fuel. State mirrors the source: `s` the generator, `done` is
`res.done`, `arg` is `args[0]`. Each iteration runs
`res = zone.run(gen.next, gen, args, 'native await')` then
`args[0] = await res.value`, with the catch block on either throw. -/
def awaiterLoop {σ : Type} (z : Zone) (g : Generator σ) :
    Nat → σ → Bool → Option Int → ZState → List Zone → Option (AwaitRes σ)
  | 0, _, _, _, _, _ => none
  | fuel+1, s, done, arg, st, obs =>
    if done then
      some ⟨Except.ok arg, s, obs, st⟩
    else
      match z.runCall (fun zc => g.resume s arg zc) st with
      | (((out, s₁), zo), st₁) =>
        match out with
        | .threw e =>
          match awaiterCatch z g s₁ false e st₁ with
          | (.cont s₂ d₂, zo₂, st₂) => awaiterLoop z g fuel s₂ d₂ arg st₂ (obs ++ [zo, zo₂])
          | (.rej e₂ s₂, zo₂, st₂) => some ⟨Except.error e₂, s₂, obs ++ [zo, zo₂], st₂⟩
        | .yielded v =>
          match v with
          | .ok n => awaiterLoop z g fuel s₁ false n (afterAwait st₁) (obs ++ [zo])
          | .error e =>
            match awaiterCatch z g s₁ false e (afterAwait st₁) with
            | (.cont s₂ d₂, zo₂, st₂) => awaiterLoop z g fuel s₂ d₂ arg st₂ (obs ++ [zo, zo₂])
            | (.rej e₂ s₂, zo₂, st₂) => some ⟨Except.error e₂, s₂, obs ++ [zo, zo₂], st₂⟩
        | .finished v =>
          match v with
          | .ok n => awaiterLoop z g fuel s₁ true n (afterAwait st₁) (obs ++ [zo])
          | .error e =>
            match awaiterCatch z g s₁ true e (afterAwait st₁) with
            | (.cont s₂ d₂, zo₂, st₂) => awaiterLoop z g fuel s₂ d₂ arg st₂ (obs ++ [zo, zo₂])
            | (.rej e₂ s₂, zo₂, st₂) => some ⟨Except.error e₂, s₂, obs ++ [zo, zo₂], st₂⟩

/-- `Zone.__awaiter` from `zone.native.awaiter.ts` (lines 9-26): capture
`zone = Zone.current` once at entry, start the generator with a direct
`gen.next()` (still in the entry zone), await the first value outside the
try (a rejection there rejects the awaiter directly), then drive the loop. -/
def zoneAwaiter {σ : Type} (g : Generator σ) (fuel : Nat) (st : ZState) : Option (AwaitRes σ) :=
  let z := st.cur
  match g.resume g.start none st.cur with
  | (out, s₁) =>
    match out with
    | .threw e => some ⟨Except.error e, s₁, [st.cur], st⟩
    | .yielded v =>
      match v with
      | .ok n => awaiterLoop z g fuel s₁ false n (afterAwait st) [st.cur]
      | .error e => some ⟨Except.error e, s₁, [st.cur], afterAwait st⟩
    | .finished v =>
      match v with
      | .ok n => awaiterLoop z g fuel s₁ true n (afterAwait st) [st.cur]
      | .error e => some ⟨Except.error e, s₁, [st.cur], afterAwait st⟩

theorem Zone.runCall_eq {α : Type} (z : Zone) (f : Zone → α) (st : ZState) :
    z.runCall f st = ((f z, z), st) := rfl

theorem afterAwait_nil (st : ZState) (h : st.pending = []) : afterAwait st = st := by
  cases st with
  | mk cur pending => cases pending with
    | nil => rfl
    | cons a l => simp at h

theorem afterAwait_pending_nil (st : ZState) (h : st.pending = []) :
    (afterAwait st).pending = [] := by rw [afterAwait_nil st h]; exact h

/-- One unfolded step of the awaiter loop, with the run/guarded-run
plumbing reduced away. -/
theorem awaiterLoop_succ {σ : Type} (z : Zone) (g : Generator σ) (fuel : Nat) (s : σ)
    (done : Bool) (arg : Option Int) (st : ZState) (obs : List Zone) :
    awaiterLoop z g (fuel+1) s done arg st obs =
      if done then some ⟨Except.ok arg, s, obs, st⟩
      else
        match g.resume s arg z with
        | (.threw e, s₁) =>
          match g.throwInto s₁ e z with
          | (.threw e₂, s₂) =>
            if z.handleErrorChain e₂ then awaiterLoop z g fuel s₂ false arg st (obs ++ [z, z])
            else some ⟨Except.error e₂, s₂, obs ++ [z, z], st⟩
          | (.yielded _, s₂) => awaiterLoop z g fuel s₂ false arg st (obs ++ [z, z])
          | (.finished _, s₂) => awaiterLoop z g fuel s₂ true arg st (obs ++ [z, z])
        | (.yielded v, s₁) =>
          match v with
          | .ok n => awaiterLoop z g fuel s₁ false n (afterAwait st) (obs ++ [z])
          | .error e =>
            match g.throwInto s₁ e z with
            | (.threw e₂, s₂) =>
              if z.handleErrorChain e₂ then
                awaiterLoop z g fuel s₂ false arg (afterAwait st) (obs ++ [z, z])
              else some ⟨Except.error e₂, s₂, obs ++ [z, z], afterAwait st⟩
            | (.yielded _, s₂) => awaiterLoop z g fuel s₂ false arg (afterAwait st) (obs ++ [z, z])
            | (.finished _, s₂) => awaiterLoop z g fuel s₂ true arg (afterAwait st) (obs ++ [z, z])
        | (.finished v, s₁) =>
          match v with
          | .ok n => awaiterLoop z g fuel s₁ true n (afterAwait st) (obs ++ [z])
          | .error e =>
            match g.throwInto s₁ e z with
            | (.threw e₂, s₂) =>
              if z.handleErrorChain e₂ then
                awaiterLoop z g fuel s₂ true arg (afterAwait st) (obs ++ [z, z])
              else some ⟨Except.error e₂, s₂, obs ++ [z, z], afterAwait st⟩
            | (.yielded _, s₂) => awaiterLoop z g fuel s₂ false arg (afterAwait st) (obs ++ [z, z])
            | (.finished _, s₂) => awaiterLoop z g fuel s₂ true arg (afterAwait st) (obs ++ [z, z])
      := by
  rw [awaiterLoop]
  cases done with
  | true => rfl
  | false =>
    simp only [Bool.false_eq_true, if_false]
    rcases h1 : g.resume s (arg) z with ⟨out, s₁⟩
    simp only [Zone.runCall_eq, h1]
    cases out with
    | threw e =>
      rcases h2 : g.throwInto s₁ e z with ⟨out2, s₂⟩
      simp only [awaiterCatch, Zone.runCall_eq, h2]
      cases out2 with
      | threw e₂ => by_cases hc : z.handleErrorChain e₂ <;> simp [hc]
      | yielded v₂ => rfl
      | finished v₂ => rfl
    | yielded v =>
      cases v with
      | ok n => rfl
      | error e =>
        rcases h2 : g.throwInto s₁ e z with ⟨out2, s₂⟩
        simp only [awaiterCatch, Zone.runCall_eq, h2]
        cases out2 with
        | threw e₂ => by_cases hc : z.handleErrorChain e₂ <;> simp [hc]
        | yielded v₂ => rfl
        | finished v₂ => rfl
    | finished v =>
      cases v with
      | ok n => rfl
      | error e =>
        rcases h2 : g.throwInto s₁ e z with ⟨out2, s₂⟩
        simp only [awaiterCatch, Zone.runCall_eq, h2]
        cases out2 with
        | threw e₂ => by_cases hc : z.handleErrorChain e₂ <;> simp [hc]
        | yielded v₂ => rfl
        | finished v₂ => rfl

/-- Loop invariant: every zone recorded as observed by a generator step is
the captured zone `z`, no matter the generator, the fuel, or the
interference at await boundaries. -/
theorem awaiterLoop_obs {σ : Type} (z : Zone) (g : Generator σ) :
    ∀ (fuel : Nat) (s : σ) (done : Bool) (arg : Option Int) (st : ZState)
      (obs : List Zone) (r : AwaitRes σ),
      awaiterLoop z g fuel s done arg st obs = some r →
      (∀ zo ∈ obs, zo = z) → ∀ zo ∈ r.obs, zo = z := by
  intro fuel
  induction fuel with
  | zero =>
    intro s done arg st obs r h _
    simp [awaiterLoop] at h
  | succ fuel ih =>
    intro s done arg st obs r h hobs
    have h1 : ∀ zo ∈ obs ++ [z], zo = z := by
      intro zo hz
      rcases List.mem_append.1 hz with hz | hz
      · exact hobs _ hz
      · simpa using hz
    have h2 : ∀ zo ∈ obs ++ [z, z], zo = z := by
      intro zo hz
      rcases List.mem_append.1 hz with hz | hz
      · exact hobs _ hz
      · rcases List.mem_cons.1 hz with hz | hz
        · exact hz
        · simpa using hz
    rw [awaiterLoop_succ] at h
    cases done with
    | true =>
      simp only [if_true, Option.some.injEq] at h
      subst h
      simpa using hobs
    | false =>
      simp only [Bool.false_eq_true, if_false] at h
      split at h
      · split at h
        · split at h
          · exact ih _ _ _ _ _ _ h h2
          · simp only [Option.some.injEq] at h
            subst h
            simpa using h2
        · exact ih _ _ _ _ _ _ h h2
        · exact ih _ _ _ _ _ _ h h2
      · split at h
        · exact ih _ _ _ _ _ _ h h1
        · split at h
          · split at h
            · exact ih _ _ _ _ _ _ h h2
            · simp only [Option.some.injEq] at h
              subst h
              simpa using h2
          · exact ih _ _ _ _ _ _ h h2
          · exact ih _ _ _ _ _ _ h h2
      · split at h
        · exact ih _ _ _ _ _ _ h h1
        · split at h
          · split at h
            · exact ih _ _ _ _ _ _ h h2
            · simp only [Option.some.injEq] at h
              subst h
              simpa using h2
          · exact ih _ _ _ _ _ _ h h2
          · exact ih _ _ _ _ _ _ h h2

/-- Loop invariant: with no interference pending, the current-zone register
state is unchanged when the awaiter loop finishes (every `zone.run` and
`zone.runGuarded` restores it, and awaits change nothing). -/
theorem awaiterLoop_state {σ : Type} (z : Zone) (g : Generator σ) :
    ∀ (fuel : Nat) (s : σ) (done : Bool) (arg : Option Int) (st : ZState)
      (obs : List Zone) (r : AwaitRes σ),
      awaiterLoop z g fuel s done arg st obs = some r →
      st.pending = [] → r.st = st := by
  intro fuel
  induction fuel with
  | zero =>
    intro s done arg st obs r h _
    simp [awaiterLoop] at h
  | succ fuel ih =>
    intro s done arg st obs r h hp
    rw [awaiterLoop_succ, afterAwait_nil st hp] at h
    cases done with
    | true =>
      simp only [if_true, Option.some.injEq] at h
      subst h
      rfl
    | false =>
      simp only [Bool.false_eq_true, if_false] at h
      split at h
      · split at h
        · split at h
          · exact ih _ _ _ _ _ _ h hp
          · simp only [Option.some.injEq] at h
            subst h
            rfl
        · exact ih _ _ _ _ _ _ h hp
        · exact ih _ _ _ _ _ _ h hp
      · split at h
        · exact ih _ _ _ _ _ _ h hp
        · split at h
          · split at h
            · exact ih _ _ _ _ _ _ h hp
            · simp only [Option.some.injEq] at h
              subst h
              rfl
          · exact ih _ _ _ _ _ _ h hp
          · exact ih _ _ _ _ _ _ h hp
      · split at h
        · exact ih _ _ _ _ _ _ h hp
        · split at h
          · split at h
            · exact ih _ _ _ _ _ _ h hp
            · simp only [Option.some.injEq] at h
              subst h
              rfl
          · exact ih _ _ _ _ _ _ h hp
          · exact ih _ _ _ _ _ _ h hp

/-- Every zone observed by a generator step of a `Zone.__awaiter` run is the
zone captured from `Zone.current` at awaiter entry. -/
theorem zoneAwaiter_obs {σ : Type} (g : Generator σ) (fuel : Nat) (st : ZState)
    (r : AwaitRes σ) (h : zoneAwaiter g fuel st = some r) :
    ∀ zo ∈ r.obs, zo = st.cur := by
  rw [zoneAwaiter] at h
  have hbase : ∀ zo ∈ [st.cur], zo = st.cur := by
    intro zo hz
    simpa using hz
  split at h
  split at h <;> (try split at h) <;>
    first
    | exact awaiterLoop_obs st.cur g _ _ _ _ _ _ _ h hbase
    | (simp only [Option.some.injEq] at h
       subst h
       simpa using hbase)

/-- With no interference, a completed `Zone.__awaiter` run leaves the
current-zone register exactly as it found it. -/
theorem zoneAwaiter_state {σ : Type} (g : Generator σ) (fuel : Nat) (st : ZState)
    (r : AwaitRes σ) (h : zoneAwaiter g fuel st = some r) (hp : st.pending = []) :
    r.st = st := by
  rw [zoneAwaiter, afterAwait_nil st hp] at h
  split at h
  split at h <;> (try split at h) <;>
    first
    | exact awaiterLoop_state st.cur g _ _ _ _ _ _ _ h hp
    | (simp only [Option.some.injEq] at h
       subst h
       rfl)

/-- Modelled from the spec: the synchronous computations a program can run
against the context runtime — return a value, throw, observe the current
context, or enter a context with `runIn` / `runGuardedIn` and continue with
the outcome. Continuations make nesting and reentrancy explicit. -/
inductive Comp : Type where
  | pure (v : Option Int)
  | raise (e : Err)
  | readZone (k : Zone → Comp)
  | runIn (z : Zone) (body : Comp) (k : Option Int → Comp)
  | runGuardedIn (z : Zone) (body : Comp) (k : Option Int → Comp)

/-- Modelled from the spec: the interpreter for `Comp` over the single
current-context register. `runIn` enters `z` for the body and restores the
previous register on both exit paths, rethrowing the body's error to the
caller; `runGuardedIn` additionally offers a thrown error to the target
node's `onHandleError` chain: if some hook marks it handled execution
continues (the call yields `undefined`), otherwise the error is rethrown. -/
def interp : Nat → Comp → Zone → Option (Except Err (Option Int) × Zone)
  | 0, _, _ => none
  | fuel+1, c, cur =>
    match c with
    | .pure v => some (.ok v, cur)
    | .raise e => some (.error e, cur)
    | .readZone k => interp fuel (k cur) cur
    | .runIn z body k =>
      match interp fuel body z with
      | none => none
      | some (.ok v, _) => interp fuel (k v) cur
      | some (.error e, _) => some (.error e, cur)
    | .runGuardedIn z body k =>
      match interp fuel body z with
      | none => none
      | some (.ok v, _) => interp fuel (k v) cur
      | some (.error e, _) =>
        if z.handleErrorChain e then interp fuel (k none) cur
        else some (.error e, cur)

/-- Stack discipline of the current-context register: whatever a program
does — nested `runIn`s, guarded runs, thrown errors — when it finishes, the
register holds exactly the zone it held at the start. -/
theorem interp_restores_current :
    ∀ (fuel : Nat) (c : Comp) (cur : Zone) (res : Except Err (Option Int)) (cur' : Zone),
      interp fuel c cur = some (res, cur') → cur' = cur := by
  intro fuel
  induction fuel with
  | zero =>
    intro c cur res cur' h
    simp [interp] at h
  | succ fuel ih =>
    intro c cur res cur' h
    cases c with
    | pure v =>
      simp [interp] at h
      exact h.2.symm
    | raise e =>
      simp [interp] at h
      exact h.2.symm
    | readZone k =>
      rw [interp] at h
      exact ih _ _ _ _ h
    | runIn z body k =>
      rw [interp] at h
      split at h
      · exact absurd h (by simp)
      · exact ih _ _ _ _ h
      · simp only [Option.some.injEq, Prod.mk.injEq] at h
        exact h.2.symm
    | runGuardedIn z body k =>
      rw [interp] at h
      split at h
      · exact absurd h (by simp)
      · exact ih _ _ _ _ h
      · split at h
        · exact ih _ _ _ _ h
        · simp only [Option.some.injEq, Prod.mk.injEq] at h
          exact h.2.symm

/-- A zone like the tests' `zone1`, with an `onHandleError` hook that marks
every error handled. -/
def zone1 : Zone := Zone.fork Zone.root "zone1" (some (fun _ => true))

/-- A zone whose hook declines every error. -/
def zoneDecline : Zone := Zone.fork Zone.root "decline" (some (fun _ => false))

/-- A two-step generator: first resumption yields, second finishes. -/
def genStepper : Generator Nat where
  start := 0
  resume := fun s _ _ =>
    if s = 0 then (GenOut.yielded (Except.ok (some 1)), 1)
    else (GenOut.finished (Except.ok (some 2)), 2)
  throwInto := fun s e _ => (GenOut.threw e, s)

/-- A generator whose body throws on every resumption and rethrows on
`gen.throw`. -/
def genThrower : Generator Nat where
  start := 0
  resume := fun s _ _ => (GenOut.threw "e1", s)
  throwInto := fun s e _ => (GenOut.threw e, s)

/-- C1: a task's callback always observes the owning (scheduling) zone as
current, and `Zone.__awaiter` captures `Zone.current` once at entry and
runs every generator resumption step inside `zone.run` of that captured
zone, so every zone the generator body observes — before and after each
await, for any interference from other contexts in between — is exactly
the zone that was current when the awaiter started. -/
theorem task_and_awaiter_observe_scheduling_zone :
    (∀ (α : Type) (t : ZTask α) (st : ZState), (invokeTask t st).1.2 = t.owner) ∧
    (∀ (σ : Type) (g : Generator σ) (fuel : Nat) (st : ZState) (r : AwaitRes σ),
      zoneAwaiter g fuel st = some r → ∀ zo ∈ r.obs, zo = st.cur) := by
  constructor
  · intro α t st
    rfl
  · intro σ g fuel st r h
    exact zoneAwaiter_obs g fuel st r h

theorem task_and_awaiter_observe_scheduling_zone_witness :
    zoneAwaiter genStepper 2 ⟨zone1, [Zone.root]⟩ =
        some ⟨Except.ok (some 2), 2, [zone1, zone1], ⟨Zone.root, []⟩⟩ ∧
      zone1 = zone1 :=
  ⟨rfl,
   (task_and_awaiter_observe_scheduling_zone.2 Nat genStepper 2 ⟨zone1, [Zone.root]⟩
     ⟨Except.ok (some 2), 2, [zone1, zone1], ⟨Zone.root, []⟩⟩ rfl) zone1 (by simp)⟩

/-- C2: stack discipline of the current-context register. For every program
over the context runtime — however `runIn`/`runGuardedIn` calls nest, and
whether they exit normally or by a thrown error — the current zone after
the program finishes is the zone current before it started; in particular
an async body driven through `Zone.__awaiter` (run without interference)
leaves `Zone.current` as it found it. -/
theorem runIn_stack_discipline :
    (∀ (fuel : Nat) (c : Comp) (cur : Zone) (res : Except Err (Option Int)) (cur' : Zone),
       interp fuel c cur = some (res, cur') → cur' = cur) ∧
    (∀ (σ : Type) (g : Generator σ) (fuel : Nat) (st : ZState) (r : AwaitRes σ),
       st.pending = [] → zoneAwaiter g fuel st = some r → r.st.cur = st.cur) := by
  constructor
  · exact interp_restores_current
  · intro σ g fuel st r hp h
    rw [zoneAwaiter_state g fuel st r h hp]

theorem runIn_stack_discipline_witness :
    interp 3 (Comp.runIn zone1 (Comp.raise "boom") Comp.pure) Zone.root =
        some (Except.error "boom", Zone.root) ∧
      Zone.root = Zone.root ∧ zone1 = zone1 :=
  ⟨rfl,
   runIn_stack_discipline.1 3 (Comp.runIn zone1 (Comp.raise "boom") Comp.pure) Zone.root
     (Except.error "boom") Zone.root rfl,
   runIn_stack_discipline.2 Nat genStepper 2 ⟨zone1, []⟩
     ⟨Except.ok (some 2), 2, [zone1, zone1], ⟨zone1, []⟩⟩ rfl rfl⟩

/-- C3: an error thrown by a function invoked through `runGuardedIn` is
routed to the target node's `onHandleError` hook chain instead of
propagating: if some hook in the chain marks it handled execution continues
(and the error is not rethrown), and if every hook declines it is rethrown
to the caller. The chain test is exactly "some hook returns handled".
`Zone.__awaiter` uses this: an error raised while resuming the generator is
delivered via `zone.runGuarded` around `gen.throw`, and when the chain
marks it handled the loop — and hence the remaining awaits — continues. -/
theorem runGuarded_routes_errors_to_handleError_chain :
    (∀ (fuel : Nat) (z : Zone) (body : Comp) (k : Option Int → Comp) (cur z' : Zone) (e : Err),
       interp fuel body z = some (Except.error e, z') →
       interp (fuel+1) (Comp.runGuardedIn z body k) cur =
         (if z.handleErrorChain e then interp fuel (k none) cur
          else some (Except.error e, cur))) ∧
    (∀ (z : Zone) (e : Err), z.handleErrorChain e = z.hooks.any (fun h => h e)) ∧
    (∀ (σ : Type) (z : Zone) (g : Generator σ) (fuel : Nat) (s s₁ s₂ : σ)
       (arg : Option Int) (st : ZState) (obs : List Zone) (e e₂ : Err),
       g.resume s arg z = (GenOut.threw e, s₁) →
       g.throwInto s₁ e z = (GenOut.threw e₂, s₂) →
       awaiterLoop z g (fuel+1) s false arg st obs =
         (if z.handleErrorChain e₂ then awaiterLoop z g fuel s₂ false arg st (obs ++ [z, z])
          else some ⟨Except.error e₂, s₂, obs ++ [z, z], st⟩)) := by
  refine ⟨?_, handleErrorChain_any_hook, ?_⟩
  · intro fuel z body k cur z' e h
    rw [interp]
    rw [h]
  · intro σ z g fuel s s₁ s₂ arg st obs e e₂ h1 h2
    rw [awaiterLoop_succ]
    simp only [Bool.false_eq_true, if_false, h1, h2]

theorem runGuarded_routes_errors_to_handleError_chain_witness :
    interp 2 (Comp.runGuardedIn zone1 (Comp.raise "err") Comp.pure) Zone.root =
        some (Except.ok none, Zone.root) ∧
      interp 2 (Comp.runGuardedIn zoneDecline (Comp.raise "err") Comp.pure) Zone.root =
        some (Except.error "err", Zone.root) ∧
      awaiterLoop zone1 genThrower 1 0 false none ⟨zone1, []⟩ [] =
        awaiterLoop zone1 genThrower 0 0 false none ⟨zone1, []⟩ [zone1, zone1] :=
  ⟨runGuarded_routes_errors_to_handleError_chain.1 1 zone1 (Comp.raise "err") Comp.pure
     Zone.root zone1 "err" rfl,
   runGuarded_routes_errors_to_handleError_chain.1 1 zoneDecline (Comp.raise "err") Comp.pure
     Zone.root zoneDecline "err" rfl,
   runGuarded_routes_errors_to_handleError_chain.2.2 Nat zone1 genThrower 0 0 0 0 none
     ⟨zone1, []⟩ [] "e1" "e1" rfl rfl⟩

/-- The work a scheduled callback can perform against the virtual clock
engine: record a log entry, schedule a one-shot task (`setTimeout`),
schedule a periodic task (`setInterval`), or enqueue immediate (micro)
work. Bodies are data, so callbacks can schedule further work. -/
inductive FCmd where
  | log (msg : String)
  | setTimeoutCmd (delay : Nat) (body : List FCmd)
  | setIntervalCmd (period : Nat) (body : List FCmd)
  | queueMicrotask (body : List FCmd)

/-- Modelled from the spec: a pending timed task of the virtual clock
engine (the fake-async scheduler itself is not under src/, only its thin
wrappers and tests are): insertion sequence id, absolute virtual fire
time, `some interval` for periodic tasks, and the callback body. -/
structure FTask where
  id : Nat
  fireTime : Nat
  interval : Option Nat
  body : List FCmd

/-- Modelled from the spec: the virtual clock engine state — the virtual
time counter, the insertion-sequence counter, the FIFO of immediate work,
the pending timed tasks, plus observations: the log written by callbacks
and, for each timed-task firing, the triple (task id, virtual fire time,
number of immediate-work items pending at the moment the callback began). -/
structure FState where
  currentTickTime : Nat
  nextId : Nat
  microQueue : List (List FCmd)
  timers : List FTask
  log : List String
  firings : List (Nat × Nat × Nat)

def initState : FState := ⟨0, 0, [], [], [], []⟩

/-- Running one callback command against the engine state. -/
def execCmd (st : FState) : FCmd → FState
  | .log m => { st with log := st.log ++ [m] }
  | .setTimeoutCmd d body =>
    { st with
      timers := st.timers ++ [⟨st.nextId, st.currentTickTime + d, none, body⟩],
      nextId := st.nextId + 1 }
  | .setIntervalCmd p body =>
    { st with
      timers := st.timers ++ [⟨st.nextId, st.currentTickTime + p, some p, body⟩],
      nextId := st.nextId + 1 }
  | .queueMicrotask body => { st with microQueue := st.microQueue ++ [body] }

def execCmds (cs : List FCmd) (st : FState) : FState := cs.foldl execCmd st

/-- Modelled from the spec: `drainImmediate` — repeatedly invoke the head
of the immediate-work FIFO until it is empty, including work newly
appended by an invoked item (till-fixpoint microtask draining). -/
def drainMicro : Nat → FState → Option FState
  | 0, _ => none
  | fuel+1, st =>
    match st.microQueue with
    | [] => some st
    | b :: rest => drainMicro fuel (execCmds b { st with microQueue := rest })

/-- Strict ordering of timed tasks by (fire time, insertion sequence). -/
def taskBefore (a b : FTask) : Bool :=
  a.fireTime < b.fireTime || (a.fireTime == b.fireTime && a.id < b.id)

/-- The earliest pending task in (fireTime, insertion sequence) order. -/
def pickEarliest : List FTask → Option FTask
  | [] => none
  | t :: ts =>
    match pickEarliest ts with
    | none => some t
    | some u => if taskBefore u t then some u else some t

/-- Modelled from the spec: the tasks eligible during an advancement — fire
time within the window, and, when new work is not processed synchronously,
only tasks that existed when the advancement started (id below the limit). -/
def eligibleTasks (endTime : Nat) (idLimit : Option Nat) (ts : List FTask) : List FTask :=
  ts.filter (fun t =>
    decide (t.fireTime ≤ endTime) &&
    (match idLimit with
     | none => true
     | some l => decide (t.id < l)))

/-- Firing one timed task: advance virtual time to its fire time, remove it
from the pending set, record the firing observation, run the body, and
re-arm a periodic task at `previousFireTime + interval`. -/
def fireTask (t : FTask) (st : FState) : FState :=
  let st₁ : FState :=
    { st with
      currentTickTime := t.fireTime,
      timers := st.timers.filter (fun u => decide (u.id ≠ t.id)),
      firings := st.firings ++ [(t.id, t.fireTime, st.microQueue.length)] }
  let st₂ := execCmds t.body st₁
  match t.interval with
  | none => st₂
  | some p => { st₂ with timers := st₂.timers ++ [{ t with fireTime := t.fireTime + p }] }

/-- Modelled from the spec: the advancement loop — repeatedly pop the
earliest eligible task, fire it, drain immediate work, and continue until
no eligible task remains. -/
def tickLoop (endTime : Nat) (idLimit : Option Nat) : Nat → FState → Option FState
  | 0, _ => none
  | fuel+1, st =>
    match pickEarliest (eligibleTasks endTime idLimit st.timers) with
    | none => some st
    | some t =>
      match drainMicro fuel (fireTask t st) with
      | none => none
      | some st₂ => tickLoop endTime idLimit fuel st₂

/-- Modelled from the spec: `advance(millis, {processNewWorkSynchronously})`
(the engine behind the `tick` helper) — drain immediate work, fire the
eligible timed tasks in (fireTime, insertion) order within the window
(restricting to pre-existing tasks when `processNew` is false), then set
virtual time to exactly `start + millis`. -/
def tick (millis : Nat) (processNew : Bool) (fuel : Nat) (st : FState) : Option FState :=
  match drainMicro fuel st with
  | none => none
  | some st₁ =>
    match tickLoop (st₁.currentTickTime + millis)
        (if processNew then none else some st₁.nextId) fuel st₁ with
    | none => none
    | some st₂ => some { st₂ with currentTickTime := st₁.currentTickTime + millis }

def oneShotCount (st : FState) : Nat :=
  (st.timers.filter (fun t => t.interval.isNone)).length

def periodicCount (st : FState) : Nat :=
  (st.timers.filter (fun t => t.interval.isSome)).length

/-- Modelled from the spec: `discardPeriodic()` — remove pending periodic
tasks without running them. -/
def discardPeriodic (st : FState) : FState :=
  { st with timers := st.timers.filter (fun t => t.interval.isNone) }

/-- Modelled from the spec: the exit contract of a guarded activation — if
any periodic or one-shot task is still pending, fail with the precise
count, distinguishing the task kind (messages as asserted by the tests in
`fake_async.ts`). -/
def exitCheck (st : FState) : Except String FState :=
  if 0 < periodicCount st then
    Except.error (toString (periodicCount st) ++ " periodic timer(s) still in the queue.")
  else if 0 < oneShotCount st then
    Except.error (toString (oneShotCount st) ++ " timer(s) still in the queue.")
  else Except.ok st

/-- Modelled from the spec: a guarded virtual-clock activation (the engine
behind `fakeAsync`). Activating while another activation is active fails
fast; otherwise the body runs on a fresh engine, remaining immediate work
is drained, and the exit contract is enforced. -/
def fakeAsyncRun (alreadyActive : Bool) (body : List FCmd) (fuel : Nat) :
    Option (Except String FState) :=
  if alreadyActive then some (Except.error "fakeAsync() calls can not be nested")
  else
    match drainMicro fuel (execCmds body initState) with
    | none => none
    | some st => some (exitCheck st)

theorem execCmd_firings (st : FState) (c : FCmd) : (execCmd st c).firings = st.firings := by
  cases c <;> rfl

theorem execCmds_firings (cs : List FCmd) :
    ∀ st : FState, (execCmds cs st).firings = st.firings := by
  induction cs with
  | nil => intro st; rfl
  | cons c cs ih =>
    intro st
    show (execCmds cs (execCmd st c)).firings = st.firings
    rw [ih (execCmd st c), execCmd_firings]

theorem drainMicro_firings :
    ∀ (fuel : Nat) (st st' : FState), drainMicro fuel st = some st' → st'.firings = st.firings := by
  intro fuel
  induction fuel with
  | zero => intro st st' h; simp [drainMicro] at h
  | succ fuel ih =>
    intro st st' h
    rw [drainMicro] at h
    split at h
    · simp only [Option.some.injEq] at h
      subst h
      rfl
    · rw [ih _ _ h, execCmds_firings]

theorem drainMicro_empty :
    ∀ (fuel : Nat) (st st' : FState), drainMicro fuel st = some st' → st'.microQueue = [] := by
  intro fuel
  induction fuel with
  | zero => intro st st' h; simp [drainMicro] at h
  | succ fuel ih =>
    intro st st' h
    rw [drainMicro] at h
    split at h
    · simp only [Option.some.injEq] at h
      subst h
      assumption
    · exact ih _ _ h

theorem drainMicro_of_nil (fuel : Nat) (st st' : FState) (hq : st.microQueue = [])
    (h : drainMicro fuel st = some st') : st' = st := by
  cases fuel with
  | zero => simp [drainMicro] at h
  | succ fuel =>
    rw [drainMicro, hq] at h
    simpa using h.symm

theorem pickEarliest_mem : ∀ (ts : List FTask) (t : FTask), pickEarliest ts = some t → t ∈ ts := by
  intro ts
  induction ts with
  | nil => intro t h; simp [pickEarliest] at h
  | cons a l ih =>
    intro t h
    rw [pickEarliest] at h
    split at h
    · simp only [Option.some.injEq] at h
      subst h
      exact List.mem_cons_self _ _
    · split at h <;> simp only [Option.some.injEq] at h <;> subst h
      · exact List.mem_cons_of_mem _ (ih _ (by assumption))
      · exact List.mem_cons_self _ _

theorem pickEarliest_eq_none : ∀ ts : List FTask, pickEarliest ts = none → ts = [] := by
  intro ts h
  cases ts with
  | nil => rfl
  | cons a l =>
    rw [pickEarliest] at h
    split at h
    · exact absurd h (by simp)
    · split at h <;> exact absurd h (by simp)

theorem fireTask_firings (t : FTask) (st : FState) :
    (fireTask t st).firings = st.firings ++ [(t.id, t.fireTime, st.microQueue.length)] := by
  rw [fireTask]
  split
  · rw [execCmds_firings]
  · rw [execCmds_firings]

/-- When the advancement loop completes, no pending task is still eligible
in the window: with `processNew` semantics (`idLimit = none`) every task
whose fire time lay within the window — including tasks scheduled by fired
callbacks — has been fired. -/
theorem tickLoop_no_eligible (endTime : Nat) (idLimit : Option Nat) :
    ∀ (fuel : Nat) (st st' : FState), tickLoop endTime idLimit fuel st = some st' →
      eligibleTasks endTime idLimit st'.timers = [] := by
  intro fuel
  induction fuel with
  | zero => intro st st' h; simp [tickLoop] at h
  | succ fuel ih =>
    intro st st' h
    rw [tickLoop] at h
    split at h
    · simp only [Option.some.injEq] at h
      subst h
      exact pickEarliest_eq_none _ (by assumption)
    · split at h
      · exact absurd h (by simp)
      · exact ih _ _ h

/-- The advancement loop only appends firing records; starting with no
immediate work pending, every new record shows zero immediate work pending
at the moment its callback began, and under an insertion-sequence limit
every fired task predates the limit. -/
theorem tickLoop_new_firings (endTime : Nat) (idLimit : Option Nat) :
    ∀ (fuel : Nat) (st st' : FState), tickLoop endTime idLimit fuel st = some st' →
      st.microQueue = [] →
      ∃ new, st'.firings = st.firings ++ new ∧
        (∀ p ∈ new, p.2.2 = 0) ∧
        (∀ l, idLimit = some l → ∀ p ∈ new, p.1 < l) := by
  intro fuel
  induction fuel with
  | zero => intro st st' h; simp [tickLoop] at h
  | succ fuel ih =>
    intro st st' h hq
    rw [tickLoop] at h
    split at h
    · simp only [Option.some.injEq] at h
      subst h
      exact ⟨[], by simp⟩
    · rename_i t hpick
      generalize hdrain : drainMicro fuel (fireTask t st) = dres at h
      cases dres with
      | none => exact absurd h (by simp)
      | some st₂ =>
        simp only [] at h
        have hmem : t ∈ eligibleTasks endTime idLimit st.timers := pickEarliest_mem _ _ hpick
        have hq₂ : st₂.microQueue = [] := drainMicro_empty _ _ _ hdrain
        have hf₂ : st₂.firings = st.firings ++ [(t.id, t.fireTime, 0)] := by
          rw [drainMicro_firings _ _ _ hdrain, fireTask_firings, hq]
          rfl
        obtain ⟨new, hnew, hzero, hlim⟩ := ih _ _ h hq₂
        refine ⟨(t.id, t.fireTime, 0) :: new, ?_, ?_, ?_⟩
        · rw [hnew, hf₂, List.append_assoc]
          rfl
        · intro p hp
          rcases List.mem_cons.1 hp with hp | hp
          · subst hp; rfl
          · exact hzero p hp
        · intro l hl p hp
          rcases List.mem_cons.1 hp with hp | hp
          · subst hp
            have := (List.mem_filter.1 hmem).2
            rw [hl] at this
            simp only [Bool.and_eq_true, decide_eq_true_eq] at this
            exact this.2
          · exact hlim l hl p hp

/-- At tick level: immediate work is drained before the timed loop runs and
after each firing, so every timed-task callback begins with zero immediate
work pending. -/
theorem tick_firings_zero (millis : Nat) (pn : Bool) (fuel : Nat) (st st' : FState)
    (h : tick millis pn fuel st = some st') (h0 : ∀ p ∈ st.firings, p.2.2 = 0) :
    ∀ p ∈ st'.firings, p.2.2 = 0 := by
  rw [tick] at h
  generalize hdrain : drainMicro fuel st = dres at h
  cases dres with
  | none => exact absurd h (by simp)
  | some st₁ =>
    simp only [] at h
    generalize hloop :
      tickLoop (st₁.currentTickTime + millis)
        (if pn then none else some st₁.nextId) fuel st₁ = lres at h
    cases lres with
    | none => exact absurd h (by simp)
    | some st₂ =>
      simp only [Option.some.injEq] at h
      subst h
      have hq₁ : st₁.microQueue = [] := drainMicro_empty _ _ _ hdrain
      have hf₁ : st₁.firings = st.firings := drainMicro_firings _ _ _ hdrain
      obtain ⟨new, hnew, hzero, -⟩ := tickLoop_new_firings _ _ _ _ _ hloop hq₁
      intro p hp
      simp only [] at hp
      rw [hnew, hf₁] at hp
      rcases List.mem_append.1 hp with hp | hp
      · exact h0 p hp
      · exact hzero p hp

/-- With `processNew` true, a completed advance leaves no pending task —
whether pre-existing or newly scheduled by a fired callback — whose fire
time lies at or before the final virtual time. -/
theorem tick_processNew_exhausts_window (millis fuel : Nat) (st st' : FState)
    (h : tick millis true fuel st = some st') :
    ∀ t ∈ st'.timers, st'.currentTickTime < t.fireTime := by
  rw [tick] at h
  generalize hdrain : drainMicro fuel st = dres at h
  cases dres with
  | none => exact absurd h (by simp)
  | some st₁ =>
    simp only [] at h
    generalize hloop :
      tickLoop (st₁.currentTickTime + millis)
        (if True then none else some st₁.nextId) fuel st₁ = lres at h
    cases lres with
    | none => exact absurd h (by simp)
    | some st₂ =>
      simp only [Option.some.injEq] at h
      subst h
      have hel := tickLoop_no_eligible _ _ _ _ _ hloop
      intro t ht
      simp only [] at ht ⊢
      have := List.filter_eq_nil_iff.1 hel t ht
      simp only [Bool.and_eq_true, decide_eq_true_eq] at this
      have hlt : ¬ t.fireTime ≤ st₁.currentTickTime + millis := fun hle => this ⟨hle, rfl⟩
      omega

/-- With `processNew` false, an advance (from a state with no immediate
work pending) fires only tasks that already existed when it started: every
new firing record carries an insertion sequence below the starting
counter, so tasks scheduled during the advance stay pending. -/
theorem tick_no_processNew_only_preexisting (millis fuel : Nat) (st st' : FState)
    (h : tick millis false fuel st = some st') (hq : st.microQueue = []) :
    ∃ new, st'.firings = st.firings ++ new ∧ ∀ p ∈ new, p.1 < st.nextId := by
  rw [tick] at h
  generalize hdrain : drainMicro fuel st = dres at h
  cases dres with
  | none => exact absurd h (by simp)
  | some st₁ =>
    have hst₁ : st₁ = st := drainMicro_of_nil _ _ _ hq hdrain
    subst hst₁
    simp only [Bool.false_eq_true, if_false] at h
    generalize hloop :
      tickLoop (st₁.currentTickTime + millis) (some st₁.nextId) fuel st₁ = lres at h
    cases lres with
    | none => exact absurd h (by simp)
    | some st₂ =>
      simp only [Option.some.injEq] at h
      subst h
      obtain ⟨new, hnew, -, hlim⟩ := tickLoop_new_firings _ _ _ _ _ hloop hq
      exact ⟨new, hnew, hlim _ rfl⟩

/-- Advancing a state with no pending timed tasks and no immediate work
only moves the virtual clock. -/
theorem tick_empty_timers (m : Nat) (pn : Bool) (fuel : Nat) (st : FState)
    (ht : st.timers = []) (hq : st.microQueue = []) :
    tick m pn (fuel+1) st = some { st with currentTickTime := st.currentTickTime + m } := by
  simp [tick, drainMicro, hq, tickLoop, eligibleTasks, ht, pickEarliest]

/-- The state right after scheduling one one-shot task with delay `d`
(callback logs "fired") inside a fresh activation. -/
def schedOneShot (d : Nat) : FState :=
  execCmds [FCmd.setTimeoutCmd d [FCmd.log "fired"]] initState

/-- A sequence of `advance` calls, each with ample fuel for this scenario. -/
def runTicks (ms : List Nat) (st : FState) : Option FState :=
  match ms with
  | [] => some st
  | m :: rest =>
    match tick m true 3 st with
    | none => none
    | some st' => runTicks rest st'

/-- The one-shot scenario state while the task is still pending, at virtual
time `t`. -/
def pendState (d t : Nat) : FState :=
  ⟨t, 1, [], [⟨0, d, none, [FCmd.log "fired"]⟩], [], []⟩

/-- The one-shot scenario state after the task fired (once, at time `d`),
at virtual time `t`. -/
def doneState (d t : Nat) : FState :=
  ⟨t, 1, [], [], ["fired"], [(0, d, 0)]⟩

theorem schedOneShot_eq (d : Nat) : schedOneShot d = pendState d 0 := by
  simp [schedOneShot, pendState, execCmds, execCmd, initState]

theorem tick_pend_lt (d t m : Nat) (h : t + m < d) :
    tick m true 3 (pendState d t) = some (pendState d (t + m)) := by
  have hd : ¬ (d ≤ t + m) := by omega
  simp [tick, drainMicro, tickLoop, eligibleTasks, pendState, pickEarliest, hd]

theorem tick_pend_ge (d t m : Nat) (h : d ≤ t + m) :
    tick m true 3 (pendState d t) = some (doneState d (t + m)) := by
  simp [tick, drainMicro, tickLoop, eligibleTasks, pendState, doneState, pickEarliest, h,
    fireTask, execCmds, execCmd]

theorem tick_done (d t m : Nat) :
    tick m true 3 (doneState d t) = some (doneState d (t + m)) := by
  simp [tick, drainMicro, tickLoop, eligibleTasks, doneState, pickEarliest]

theorem runTicks_done (d : Nat) :
    ∀ (ms : List Nat) (t : Nat), runTicks ms (doneState d t) = some (doneState d (t + ms.sum)) := by
  intro ms
  induction ms with
  | nil => intro t; simp [runTicks]
  | cons m rest ih =>
    intro t
    rw [runTicks, tick_done d t m]
    show runTicks rest (doneState d (t + m)) = some (doneState d (t + (m :: rest).sum))
    have hsum : t + m + rest.sum = t + (m :: rest).sum := by
      simp [List.sum_cons]
      omega
    rw [ih (t + m), hsum]

theorem runTicks_pend (d : Nat) :
    ∀ (ms : List Nat) (t : Nat) (st' : FState),
      runTicks ms (pendState d t) = some st' →
      st'.log.count "fired" = (if d ≤ t + ms.sum ∧ ms ≠ [] then 1 else 0) ∧
      oneShotCount st' = (if d ≤ t + ms.sum ∧ ms ≠ [] then 0 else 1) := by
  intro ms
  induction ms with
  | nil =>
    intro t st' h
    rw [runTicks] at h
    simp only [Option.some.injEq] at h
    subst h
    have hc : ¬ (d ≤ t + ([] : List Nat).sum ∧ ([] : List Nat) ≠ []) := by simp
    rw [if_neg hc, if_neg hc]
    exact ⟨rfl, rfl⟩
  | cons m rest ih =>
    intro t st' h
    rw [runTicks] at h
    by_cases hc : d ≤ t + m
    · rw [tick_pend_ge d t m hc] at h
      simp only [] at h
      rw [runTicks_done d rest (t + m)] at h
      simp only [Option.some.injEq] at h
      subst h
      have hcond : d ≤ t + (m :: rest).sum ∧ (m :: rest) ≠ [] := by
        refine ⟨?_, by simp⟩
        simp only [List.sum_cons]
        omega
      rw [if_pos hcond, if_pos hcond]
      exact ⟨rfl, rfl⟩
    · rw [tick_pend_lt d t m (by omega)] at h
      simp only [] at h
      have hih := ih (t + m) st' h
      have hiff : (d ≤ t + m + rest.sum ∧ rest ≠ []) ↔
          (d ≤ t + (m :: rest).sum ∧ (m :: rest) ≠ []) := by
        rcases eq_or_ne rest [] with hr | hr
        · subst hr
          simp only [List.sum_cons, List.sum_nil, Nat.add_zero, ne_eq, not_true_eq_false,
            and_false, false_iff, not_and]
          intro hle
          exact absurd hle (by omega)
        · have hsum : t + m + rest.sum = t + (m :: rest).sum := by
            simp only [List.sum_cons]
            omega
          simp [hr, hsum]
      rw [if_congr hiff rfl rfl, if_congr hiff rfl rfl] at hih
      exact hih

/-- C5: a one-shot task scheduled with delay `d` fires exactly once across
any sequence of advances — the log gains exactly one entry as soon as some
advance has happened and the cumulative advanced time reaches `d`, and the
task stays pending (and the log empty) while the cumulative time is below
`d`. Applied to every prefix of the advance sequence, this places the
firing in the first advance whose cumulative time reaches `d`, and in no
later one. -/
theorem one_shot_fires_exactly_once (d : Nat) (ms : List Nat) (st' : FState)
    (h : runTicks ms (schedOneShot d) = some st') :
    st'.log.count "fired" = (if d ≤ ms.sum ∧ ms ≠ [] then 1 else 0) ∧
    oneShotCount st' = (if d ≤ ms.sum ∧ ms ≠ [] then 0 else 1) := by
  rw [schedOneShot_eq] at h
  have := runTicks_pend d ms 0 st' h
  simpa using this

theorem one_shot_fires_exactly_once_witness :
    (runTicks [6, 6] (schedOneShot 10) = some (doneState 10 12)) ∧
      ((doneState 10 12).log.count "fired" =
          (if 10 ≤ ([6, 6] : List Nat).sum ∧ ([6, 6] : List Nat) ≠ [] then 1 else 0) ∧
        oneShotCount (doneState 10 12) =
          (if 10 ≤ ([6, 6] : List Nat).sum ∧ ([6, 6] : List Nat) ≠ [] then 0 else 1)) :=
  ⟨rfl, one_shot_fires_exactly_once 10 [6, 6] (doneState 10 12) rfl⟩

/-- Immediate work that enqueues further immediate work. -/
def microChainState : FState :=
  execCmds [FCmd.queueMicrotask [FCmd.log "m1", FCmd.queueMicrotask [FCmd.log "m2"]]] initState

def microChainDrained : FState := ⟨0, 0, [], [], ["m1", "m2"], []⟩

/-- The tests' mixed scenario: one pending microtask, a one-shot timer at
9ms and a periodic timer at 10ms. -/
def microTimerState : FState :=
  execCmds [FCmd.queueMicrotask [FCmd.log "microtask"],
    FCmd.setTimeoutCmd 9 [FCmd.log "timer"],
    FCmd.setIntervalCmd 10 [FCmd.log "periodic timer"]] initState

def microTimerTicked : FState :=
  ⟨10, 2, [], [⟨1, 20, some 10, [FCmd.log "periodic timer"]⟩],
   ["microtask", "timer", "periodic timer"], [(0, 9, 0), (1, 10, 0)]⟩

/-- C6: at every virtual instant the immediate-work queue is drained to a
fixpoint — including items enqueued by already-drained items — and a timed
task never begins running while immediate work is pending: draining leaves
the immediate queue empty, and every firing record of an advance (from a
state whose previous firings also had this property) shows zero immediate
work pending when the callback began. -/
theorem microtasks_drain_before_timers :
    (∀ (fuel : Nat) (st st' : FState), drainMicro fuel st = some st' →
       st'.microQueue = []) ∧
    (∀ (millis : Nat) (pn : Bool) (fuel : Nat) (st st' : FState),
       tick millis pn fuel st = some st' → (∀ p ∈ st.firings, p.2.2 = 0) →
       ∀ p ∈ st'.firings, p.2.2 = 0) :=
  ⟨drainMicro_empty, tick_firings_zero⟩

theorem microtasks_drain_before_timers_witness :
    drainMicro 3 microChainState = some microChainDrained ∧
      microChainDrained.microQueue = [] ∧
      tick 10 true 10 microTimerState = some microTimerTicked ∧
      ((0, 9, 0) : Nat × Nat × Nat).2.2 = 0 :=
  ⟨rfl,
   microtasks_drain_before_timers.1 3 microChainState microChainDrained rfl,
   rfl,
   microtasks_drain_before_timers.2 10 true 10 microTimerState microTimerTicked rfl
     (fun p hp => absurd hp (List.not_mem_nil p)) (0, 9, 0) (by simp [microTimerTicked])⟩

/-- The tests' periodic scenario: one periodic task with interval 10ms. -/
def periodicScenario : FState :=
  execCmds [FCmd.setIntervalCmd 10 [FCmd.log "cycle"]] initState

def periodicAfterTick : FState :=
  ⟨35, 1, [], [⟨0, 40, some 10, [FCmd.log "cycle"]⟩], ["cycle", "cycle", "cycle"],
   [(0, 10, 0), (0, 20, 0), (0, 30, 0)]⟩

/-- C7: after scheduling a periodic task with interval 10ms, `advance(35)`
fires it exactly 3 times, at virtual times 10, 20 and 30, with the next
occurrence (at 40) still pending; `discardPeriodic` then leaves zero
pending periodic tasks, and any later advance only moves the clock — it
fires nothing. -/
theorem periodic_advance35_and_discard :
    tick 35 true 10 periodicScenario = some periodicAfterTick ∧
    periodicAfterTick.log.count "cycle" = 3 ∧
    periodicAfterTick.firings.map (fun p => p.2.1) = [10, 20, 30] ∧
    periodicCount periodicAfterTick = 1 ∧
    periodicCount (discardPeriodic periodicAfterTick) = 0 ∧
    (∀ (m fuel : Nat),
      tick m true (fuel+1) (discardPeriodic periodicAfterTick) =
        some { discardPeriodic periodicAfterTick with currentTickTime := 35 + m }) := by
  refine ⟨rfl, rfl, rfl, rfl, rfl, ?_⟩
  intro m fuel
  exact tick_empty_timers m true fuel _ rfl rfl

/-- C4: a guarded activation that reaches its exit with pending timed work
fails with the precise count and kind: any state with pending periodic
tasks reports their count as periodic timers, any state with only one-shot
tasks pending reports their count as timers, and the two single-leak
scenarios produce exactly the tests' messages. -/
theorem dangling_timers_error :
    (∀ st : FState, 0 < periodicCount st →
       exitCheck st = Except.error
         (toString (periodicCount st) ++ " periodic timer(s) still in the queue.")) ∧
    (∀ st : FState, periodicCount st = 0 → 0 < oneShotCount st →
       exitCheck st = Except.error
         (toString (oneShotCount st) ++ " timer(s) still in the queue.")) ∧
    fakeAsyncRun false [FCmd.setTimeoutCmd 10 []] 3 =
      some (Except.error "1 timer(s) still in the queue.") ∧
    fakeAsyncRun false [FCmd.setIntervalCmd 10 []] 3 =
      some (Except.error "1 periodic timer(s) still in the queue.") := by
  refine ⟨?_, ?_, rfl, rfl⟩
  · intro st hp
    rw [exitCheck, if_pos hp]
  · intro st hp ho
    rw [exitCheck, if_neg (by omega), if_pos ho]

theorem dangling_timers_error_witness :
    exitCheck (pendState 10 0) = Except.error "1 timer(s) still in the queue." ∧
    exitCheck periodicAfterTick = Except.error "1 periodic timer(s) still in the queue." :=
  ⟨dangling_timers_error.2.1 (pendState 10 0) rfl (by decide),
   dangling_timers_error.1 periodicAfterTick (by decide)⟩

/-- C9: activating a second virtual-clock window while one is already
active fails fast with exactly the nesting error, for every body and fuel;
no engine state is produced, so the two activations' queues are never
merged. -/
theorem nested_fakeAsync_throws (body : List FCmd) (fuel : Nat) :
    fakeAsyncRun true body fuel =
      some (Except.error "fakeAsync() calls can not be nested") := rfl

namespace FakeAsyncHelpers

/-- The interface of the zone-testing fake-async module as consumed by
`packages/core/testing/src/fake_async.ts`; the later "jest-inspired" entry
points are optional (the wrapper checks they are functions before use). -/
structure FakeAsyncTestModule where
  resetFakeAsyncZone : Unit → Unit
  fakeAsync : (Unit → Unit) → Unit → Unit
  tick : Nat → Bool → Unit
  flush : Option Nat → Nat
  discardPeriodicTasks : Unit → Unit
  flushMicrotasks : Unit → Unit
  setFakeSystemTime : Option (Nat → Unit)
  getFakeSystemTime : Option (Unit → Nat)
  getRealSystemTime : Option (Unit → Nat)
  flushOnlyPendingTasks : Option (Unit → Unit)
  tickToNext : Option (Nat → Unit)
  discardAllTasks : Option (Unit → Unit)
  getTaskCount : Option (Option String → Nat)

/-- The error message of `fake_async.ts` (lines 12-14), thrown by every
helper when the zone-testing module was not found at load time. -/
def fakeAsyncTestModuleNotLoadedErrorMessage : String :=
  "zone-testing.js is needed for the fakeAsync() test helper but could not be found.\n        Please make sure that your environment includes zone.js/dist/zone-testing.js"

def resetFakeAsyncZone (m : Option FakeAsyncTestModule) : Except String Unit :=
  match m with
  | some fm => Except.ok (fm.resetFakeAsyncZone ())
  | none => Except.error fakeAsyncTestModuleNotLoadedErrorMessage

def fakeAsync (m : Option FakeAsyncTestModule) (fn : Unit → Unit) :
    Except String (Unit → Unit) :=
  match m with
  | some fm => Except.ok (fm.fakeAsync fn)
  | none => Except.error fakeAsyncTestModuleNotLoadedErrorMessage

/-- The source defaults of `tick` (fake_async.ts lines 107-110): `millis`
defaults to 0 and `processNewMacroTasksSynchronously` defaults to true. -/
def tickDefaultMillis : Nat := 0

def tickDefaultProcessNewMacroTasksSynchronously : Bool := true

def tick (m : Option FakeAsyncTestModule) (millis : Nat)
    (processNewMacroTasksSynchronously : Bool) : Except String Unit :=
  match m with
  | some fm => Except.ok (fm.tick millis processNewMacroTasksSynchronously)
  | none => Except.error fakeAsyncTestModuleNotLoadedErrorMessage

/-- `tick()` as called with no arguments: both defaults supplied. -/
def tickWithDefaults (m : Option FakeAsyncTestModule) : Except String Unit :=
  tick m tickDefaultMillis tickDefaultProcessNewMacroTasksSynchronously

def flush (m : Option FakeAsyncTestModule) (maxTurns : Option Nat) : Except String Nat :=
  match m with
  | some fm => Except.ok (fm.flush maxTurns)
  | none => Except.error fakeAsyncTestModuleNotLoadedErrorMessage

def discardPeriodicTasks (m : Option FakeAsyncTestModule) : Except String Unit :=
  match m with
  | some fm => Except.ok (fm.discardPeriodicTasks ())
  | none => Except.error fakeAsyncTestModuleNotLoadedErrorMessage

def flushMicrotasks (m : Option FakeAsyncTestModule) : Except String Unit :=
  match m with
  | some fm => Except.ok (fm.flushMicrotasks ())
  | none => Except.error fakeAsyncTestModuleNotLoadedErrorMessage

def setFakeSystemTime (m : Option FakeAsyncTestModule) (time : Nat) : Except String Unit :=
  match m with
  | some fm =>
    match fm.setFakeSystemTime with
    | some f => Except.ok (f time)
    | none => Except.error fakeAsyncTestModuleNotLoadedErrorMessage
  | none => Except.error fakeAsyncTestModuleNotLoadedErrorMessage

def getFakeSystemTime (m : Option FakeAsyncTestModule) : Except String Nat :=
  match m with
  | some fm =>
    match fm.getFakeSystemTime with
    | some f => Except.ok (f ())
    | none => Except.error fakeAsyncTestModuleNotLoadedErrorMessage
  | none => Except.error fakeAsyncTestModuleNotLoadedErrorMessage

def getRealSystemTime (m : Option FakeAsyncTestModule) : Except String Nat :=
  match m with
  | some fm =>
    match fm.getRealSystemTime with
    | some f => Except.ok (f ())
    | none => Except.error fakeAsyncTestModuleNotLoadedErrorMessage
  | none => Except.error fakeAsyncTestModuleNotLoadedErrorMessage

def flushOnlyPendingTasks (m : Option FakeAsyncTestModule) : Except String Unit :=
  match m with
  | some fm =>
    match fm.flushOnlyPendingTasks with
    | some f => Except.ok (f ())
    | none => Except.error fakeAsyncTestModuleNotLoadedErrorMessage
  | none => Except.error fakeAsyncTestModuleNotLoadedErrorMessage

def tickToNext (m : Option FakeAsyncTestModule) (steps : Nat) : Except String Unit :=
  match m with
  | some fm =>
    match fm.tickToNext with
    | some f => Except.ok (f steps)
    | none => Except.error fakeAsyncTestModuleNotLoadedErrorMessage
  | none => Except.error fakeAsyncTestModuleNotLoadedErrorMessage

def discardAllTasks (m : Option FakeAsyncTestModule) : Except String Unit :=
  match m with
  | some fm =>
    match fm.discardAllTasks with
    | some f => Except.ok (f ())
    | none => Except.error fakeAsyncTestModuleNotLoadedErrorMessage
  | none => Except.error fakeAsyncTestModuleNotLoadedErrorMessage

def getTaskCount (m : Option FakeAsyncTestModule) (taskType : Option String) :
    Except String Nat :=
  match m with
  | some fm =>
    match fm.getTaskCount with
    | some f => Except.ok (f taskType)
    | none => Except.error fakeAsyncTestModuleNotLoadedErrorMessage
  | none => Except.error fakeAsyncTestModuleNotLoadedErrorMessage

end FakeAsyncHelpers

set_option maxRecDepth 2000 in
/-- C10: when the zone-testing fake-async module is unavailable at load
time, every exported fake-async helper throws the same synchronous error —
whose message opens by naming zone-testing.js as needed — and does nothing
else. -/
theorem helpers_throw_without_zone_testing :
    FakeAsyncHelpers.fakeAsyncTestModuleNotLoadedErrorMessage.take 15 = "zone-testing.js" ∧
    FakeAsyncHelpers.resetFakeAsyncZone none =
      Except.error FakeAsyncHelpers.fakeAsyncTestModuleNotLoadedErrorMessage ∧
    (∀ fn, FakeAsyncHelpers.fakeAsync none fn =
      Except.error FakeAsyncHelpers.fakeAsyncTestModuleNotLoadedErrorMessage) ∧
    (∀ millis pn, FakeAsyncHelpers.tick none millis pn =
      Except.error FakeAsyncHelpers.fakeAsyncTestModuleNotLoadedErrorMessage) ∧
    (∀ mt, FakeAsyncHelpers.flush none mt =
      Except.error FakeAsyncHelpers.fakeAsyncTestModuleNotLoadedErrorMessage) ∧
    FakeAsyncHelpers.discardPeriodicTasks none =
      Except.error FakeAsyncHelpers.fakeAsyncTestModuleNotLoadedErrorMessage ∧
    FakeAsyncHelpers.flushMicrotasks none =
      Except.error FakeAsyncHelpers.fakeAsyncTestModuleNotLoadedErrorMessage ∧
    (∀ t, FakeAsyncHelpers.setFakeSystemTime none t =
      Except.error FakeAsyncHelpers.fakeAsyncTestModuleNotLoadedErrorMessage) ∧
    FakeAsyncHelpers.getFakeSystemTime none =
      Except.error FakeAsyncHelpers.fakeAsyncTestModuleNotLoadedErrorMessage ∧
    FakeAsyncHelpers.getRealSystemTime none =
      Except.error FakeAsyncHelpers.fakeAsyncTestModuleNotLoadedErrorMessage ∧
    FakeAsyncHelpers.flushOnlyPendingTasks none =
      Except.error FakeAsyncHelpers.fakeAsyncTestModuleNotLoadedErrorMessage ∧
    (∀ steps, FakeAsyncHelpers.tickToNext none steps =
      Except.error FakeAsyncHelpers.fakeAsyncTestModuleNotLoadedErrorMessage) ∧
    FakeAsyncHelpers.discardAllTasks none =
      Except.error FakeAsyncHelpers.fakeAsyncTestModuleNotLoadedErrorMessage ∧
    (∀ tt, FakeAsyncHelpers.getTaskCount none tt =
      Except.error FakeAsyncHelpers.fakeAsyncTestModuleNotLoadedErrorMessage) :=
  ⟨rfl, rfl, fun _ => rfl, fun _ _ => rfl, fun _ => rfl, rfl, rfl, fun _ => rfl, rfl, rfl,
   rfl, fun _ => rfl, rfl, fun _ => rfl⟩

/-- The tests' nested-timer scenario: a zero-delay timer whose callback
schedules another zero-delay timer. -/
def nestedTimerScenario : FState :=
  execCmds [FCmd.setTimeoutCmd 0 [FCmd.setTimeoutCmd 0 [FCmd.log "cb"]]] initState

def nestedAfterFalse : FState :=
  ⟨0, 2, [], [⟨1, 0, none, [FCmd.log "cb"]⟩], [], [(0, 0, 0)]⟩

/-- C8: the `tick` helper's `processNewMacroTasksSynchronously` option
defaults to true. With `processNew` true an advance keeps firing until no
pending task — including tasks newly scheduled by fired callbacks — has a
fire time inside the window; with it false only tasks that existed when
the advance began can fire, so a newly scheduled nested task stays pending
(its firing record would need an insertion sequence below the starting
counter). In the nested-timer scenario, tick-with-true fires the nested
callback in the same call, tick-with-false leaves it pending, and a later
advance fires it. -/
theorem tick_processNewMacroTasks_option :
    FakeAsyncHelpers.tickDefaultProcessNewMacroTasksSynchronously = true ∧
    (∀ m, FakeAsyncHelpers.tickWithDefaults m = FakeAsyncHelpers.tick m 0 true) ∧
    (∀ (millis fuel : Nat) (st st' : FState), tick millis true fuel st = some st' →
       ∀ t ∈ st'.timers, st'.currentTickTime < t.fireTime) ∧
    (∀ (millis fuel : Nat) (st st' : FState), tick millis false fuel st = some st' →
       st.microQueue = [] →
       ∀ p ∈ st'.firings, p ∈ st.firings ∨ p.1 < st.nextId) ∧
    Option.map FState.log (tick 0 true 5 nestedTimerScenario) = some ["cb"] ∧
    Option.map FState.log (tick 0 false 5 nestedTimerScenario) = some [] ∧
    Option.map oneShotCount (tick 0 false 5 nestedTimerScenario) = some 1 ∧
    Option.map FState.log
      (Option.bind (tick 0 false 5 nestedTimerScenario) (tick 0 true 5)) = some ["cb"] := by
  refine ⟨rfl, fun _ => rfl, tick_processNew_exhausts_window, ?_, rfl, rfl, rfl, rfl⟩
  intro millis fuel st st' h hq p hp
  obtain ⟨new, hnew, hlim⟩ := tick_no_processNew_only_preexisting millis fuel st st' h hq
  rw [hnew] at hp
  rcases List.mem_append.1 hp with hp | hp
  · exact Or.inl hp
  · exact Or.inr (hlim p hp)

theorem tick_processNewMacroTasks_option_witness :
    tick 10 true 10 microTimerState = some microTimerTicked ∧
      microTimerTicked.currentTickTime <
        (⟨1, 20, some 10, [FCmd.log "periodic timer"]⟩ : FTask).fireTime ∧
      tick 0 false 5 nestedTimerScenario = some nestedAfterFalse ∧
      ((0, 0, 0) ∈ nestedTimerScenario.firings ∨
        ((0, 0, 0) : Nat × Nat × Nat).1 < nestedTimerScenario.nextId) :=
  ⟨rfl,
   tick_processNewMacroTasks_option.2.2.1 10 10 microTimerState microTimerTicked rfl
     ⟨1, 20, some 10, [FCmd.log "periodic timer"]⟩ (by simp [microTimerTicked]),
   rfl,
   tick_processNewMacroTasks_option.2.2.2.1 0 5 nestedTimerScenario nestedAfterFalse rfl rfl
     (0, 0, 0) (by simp [nestedAfterFalse])⟩
